import Mathlib

/-!
# Verification of the `Pagination` class (mongoose-graphql-pagination)

Shallow embedding of `src/pagination.js` (the canonical variant) and of the
constructor of the second, unnamed variant (`src/unnamed/part_000`).

Modelling decisions:
* A MongoDB document is a record with a unique, totally ordered `_id`
  (modelled as `Nat`, standing for the totally ordered ObjectId space) and a
  list of named `Int`-valued fields.
* `Model.aggregate(pipeline)` is modelled by `aggregate`, executing the stage
  shapes that the source constructs or that a caller-supplied base pipeline
  may contain: `$match` (with the concrete criteria shapes the code builds),
  `$sort`, `$limit`, `$count`, `$project`.
* `$sort` is modelled as a stable sort on the sort field (ties keep input
  order); `$count` produces no output document on empty input, mirroring
  MongoDB.
* JavaScript truthiness checks (`Boolean(x)`) on optional strings/ints are
  modelled by `truthyS` / `truthyI`; `pagination.first || 25` by `perPageOf`.
* The regular expression built by `new RegExp(search, 'i')` is abstracted as
  a predicate `rx : String → Bool` applied to the stringified values of a
  document (`Object.values(result)` includes `_id` and every field value).
* Promises are modelled by explicit state passing: each memoized slot of
  `this.promises` (plus the mutable `this.aggregationPipeline` array and
  `this.perPage`) lives in `PagState`; every operation returns its result,
  the updated state, and the number of `Model.aggregate` calls it issued.
  A rejected promise is a memoized `Except.error`.
* `(await this.getEndCursor())._id` in `hasNextPage`: mongoose patches
  `ObjectId.prototype._id` to return the ObjectId itself, so on a non-null
  cursor the access is the identity; on `null` it throws a TypeError,
  modelled as the error `Err.nullDeref`.
-/

namespace MGP

/-- A stored document: unique `_id` plus named integer fields. -/
structure Doc where
  _id : Nat
  fields : List (String × Int)
deriving DecidableEq, Repr

/-- Field access `doc[field]` — `none` when the field is absent (JS `undefined`). -/
def Doc.get (d : Doc) (f : String) : Option Int :=
  (d.fields.find? (fun p => p.1 == f)).map (·.2)

/-- The `$match` criteria shapes constructed by the two source variants:
`{field: {$in: vals}}` (filters, pagination.js), `{field: value}` (filters,
part_000), `{_id: ObjectId(id)}` (cursor lookup), and the two after-boundary
disjunctions `{$or: [{field: {$gt|$lt: bound}}, {_id: {$gt: after}}]}` and
`{$or: [{_id: {$gt: after}}]}`. -/
inductive Cond where
  | fieldIn (f : String) (vs : List Int)
  | fieldEq (f : String) (v : Int)
  | idEq (i : Nat)
  | orCmp (f : String) (gt : Bool) (bound : Option Int) (afterId : Nat)
  | orId (afterId : Nat)
deriving DecidableEq, Repr

/-- Comparison `{field: {$gt: bound}}` / `{field: {$lt: bound}}` on an optional field
value; a missing field or a missing bound matches nothing. -/
def cmpB (gt : Bool) (v : Option Int) (bound : Option Int) : Bool :=
  match v, bound with
  | some v, some b => if gt then b < v else v < b
  | _, _ => false

/-- Whether a document satisfies a `$match` condition. -/
def Cond.holds : Cond → Doc → Bool
  | .fieldIn f vs, d =>
    match d.get f with
    | some v => vs.contains v
    | none => false
  | .fieldEq f v, d => d.get f == some v
  | .idEq i, d => d._id == i
  | .orCmp f gt b a, d => cmpB gt (d.get f) b || decide (a < d._id)
  | .orId a, d => decide (a < d._id)

/-- An aggregation pipeline stage. -/
inductive Stage where
  | smatch (c : Cond)
  | ssort (f : String) (order : Int)
  | slimit (n : Nat)
  | scount (nm : String)
  | sproject (keep : List String)
deriving DecidableEq, Repr

def Stage.isProject : Stage → Bool
  | .sproject _ => true
  | _ => false

def Stage.isMatch : Stage → Bool
  | .smatch _ => true
  | _ => false

/-- An element of an aggregation result: a document, or the single
`{nm: n}` document produced by `$count`. -/
inductive Out where
  | doc (d : Doc)
  | cnt (nm : String) (n : Nat)
deriving DecidableEq, Repr

/-- The plain documents in an aggregation result. -/
def docsOf : List Out → List Doc
  | [] => []
  | .doc d :: r => d :: docsOf r
  | .cnt _ _ :: r => docsOf r

/-- BSON order on an optional sort-key value: missing sorts lowest. -/
def optLe : Option Int → Option Int → Bool
  | none, _ => true
  | some _, none => false
  | some a, some b => a ≤ b

def outKey (f : String) : Out → Option Int
  | .doc d => d.get f
  | .cnt _ _ => none

/-- Comparator for `$sort {f: order}`: `order == 1` ascending, otherwise
descending (mirroring the code's `sort.order == 1` test). Ties compare as
`true` so the stable insertion keeps input order. -/
def outLe (f : String) (order : Int) (a b : Out) : Bool :=
  if order == 1 then optLe (outKey f a) (outKey f b) else optLe (outKey f b) (outKey f a)

/-- Stable insertion: `x` goes in front of the first `y` with `le x y`. -/
def insertS (le : Out → Out → Bool) (x : Out) : List Out → List Out
  | [] => [x]
  | y :: ys => if le x y then x :: y :: ys else y :: insertS le x ys

/-- Stable insertion sort (models MongoDB `$sort`; tie order = input order). -/
def sortS (le : Out → Out → Bool) : List Out → List Out
  | [] => []
  | x :: xs => insertS le x (sortS le xs)

/-- One stage of pipeline execution. -/
def runStage (outs : List Out) : Stage → List Out
  | .smatch c => outs.filter (fun o => match o with | .doc d => c.holds d | .cnt _ _ => false)
  | .ssort f o => sortS (outLe f o) outs
  | .slimit n => outs.take n
  | .scount nm => if outs.isEmpty then [] else [.cnt nm outs.length]
  | .sproject keep =>
    outs.map (fun o =>
      match o with
      | .doc d => .doc ⟨d._id, d.fields.filter (fun p => keep.contains p.1)⟩
      | c => c)

/-- Model of `Model.aggregate(pipeline)` over a collection. -/
def aggregate (coll : List Doc) (p : List Stage) : List Out :=
  p.foldl runStage (coll.map .doc)

/-! ## Constructor inputs -/

/-- The `params.sort` argument: `{field, order}`, either may be absent (or JS-falsy). -/
structure SortSpec where
  field : Option String
  order : Option Int
deriving DecidableEq, Repr

/-- The `params.pagination` argument: `{first, after}` (both optional). `after` is a
record id; a present id (nonempty hex string in JS) is always truthy. -/
structure Pagination where
  first : Option Nat
  after : Option Nat
deriving DecidableEq, Repr

/-- A filter of the canonical variant: `{$match: {field: {$in: value}}}`. -/
structure Filter where
  field : String
  value : List Int
deriving DecidableEq, Repr

/-- A filter of the part_000 variant: `{$match: {field: value}}`. -/
structure Filter0 where
  field : String
  value : Int
deriving DecidableEq, Repr

/-- Truthiness `Boolean(x)` for an optional string: the empty string is falsy. -/
def truthyS : Option String → Option String
  | some "" => none
  | some s => some s
  | none => none

/-- Truthiness `Boolean(x)` for an optional integer: `0` is falsy. -/
def truthyI : Option Int → Option Int
  | some 0 => none
  | some v => some v
  | none => none

/-- The page size `this.pagination.first || 25` (note `0 || 25 = 25` in JS). -/
def perPageOf : Option Nat → Nat
  | some 0 => 25
  | some k => k
  | none => 25

/-- The immutable per-instance configuration: the collection behind `Model`,
and the constructor arguments stored on `this`. `rx` is the abstract matcher
for `new RegExp(search, 'i')` applied to a stringified value. -/
structure Cfg where
  coll : List Doc
  sort : SortSpec
  pagination : Pagination
  search : Option String
  rx : String → Bool

/-- The errors an operation can reject with: the `findCursorModel` throw
(`No record found for ID ...`) and the TypeError from `null._id` in
`hasNextPage`. -/
inductive Err where
  | cursorNotFound (i : Nat)
  | nullDeref
deriving DecidableEq, Repr

/-- A GraphQL edge: `{node: doc, cursor: doc._id}`. -/
structure Edge where
  node : Doc
  cursor : Nat
deriving DecidableEq, Repr

deriving instance DecidableEq for Except

/-- The mutable per-instance state: `this.aggregationPipeline`,
`this.perPage`, and the memoized promise slots of `this.promises`
(a settled promise is an `Except`; `none` = slot not yet created). -/
structure PagState where
  pipeline : List Stage
  perPage : Option Nat := none
  count : Option (Except Err Nat) := none
  model : Option (Except Err Doc) := none
  edge : Option (Except Err (List Edge)) := none
  cursor : Option (Except Err (Option Nat)) := none
  nextPage : Option (Except Err Bool) := none
deriving DecidableEq, Repr

/-- The sort stage the constructor pushes when both `sort.field` and
`sort.order` are truthy. -/
def sortStageOf (sort : SortSpec) : List Stage :=
  match truthyS sort.field, truthyI sort.order with
  | some f, some o => [.ssort f o]
  | _, _ => []

/-- The constructor of `src/pagination.js`: copies the caller-supplied base
pipeline (`baseAggregationPipeline.slice()`), then pushes one
`$match {field: {$in: value}}` per filter and the sort stage into the copy.
Returns the configuration, the initial state, and the value of the
caller-owned array after construction (unchanged: the code only read it). -/
def constructSrc (coll : List Doc) (rx : String → Bool) (base : List Stage)
    (pagination : Pagination) (sort : SortSpec) (filters : List Filter)
    (search : Option String) : Cfg × PagState × List Stage :=
  let pipeline :=
    base ++ filters.map (fun f => Stage.smatch (.fieldIn f.field f.value))
      ++ sortStageOf sort
  (⟨coll, sort, pagination, search, rx⟩, { pipeline := pipeline }, base)

/-- The constructor of `src/unnamed/part_000`: `this.aggregationPipeline =
baseAggregationPipeline` with NO `.slice()`, then pushes one
`$match {field: value}` per filter and the sort stage directly into the
caller-supplied array. The third component is the caller-owned array after
construction: it now aliases `this.aggregationPipeline` and holds the
appended stages. -/
def construct000 (coll : List Doc) (rx : String → Bool) (base : List Stage)
    (pagination : Pagination) (sort : SortSpec) (filters : List Filter0)
    (search : Option String) : Cfg × PagState × List Stage :=
  let pipeline :=
    base ++ filters.map (fun f => Stage.smatch (.fieldEq f.field f.value))
      ++ sortStageOf sort
  (⟨coll, sort, pagination, search, rx⟩, { pipeline := pipeline }, pipeline)

/-! ## filterResults (client-side search mode) -/

/-- Whether `Object.values(result)` has a value matching the regex: the `_id` and every
field value, stringified. -/
def docMatches (rx : String → Bool) (d : Doc) : Bool :=
  rx (toString d._id) || d.fields.any (fun p => rx (toString p.2))

/-- The test `Boolean(pagination) && Boolean(pagination.after)`. -/
def pgAfterSet : Option Pagination → Bool
  | some p => p.after.isSome
  | none => false

/-- The test `Boolean(pagination) && afterCursorModelCount == pagination.first`
(`count == undefined` is false in JS when `first` is absent). -/
def limitHit (pg : Option Pagination) (cnt : Int) : Bool :=
  match pg with
  | some p =>
    match p.first with
    | some f => cnt == (f : Int)
    | none => false
  | none => false

/-- The loop body of `filterResults`, threading `afterCursorModelCount`. -/
def frGo (rx : String → Bool) (pg : Option Pagination) : Int → List Doc → List Doc
  | _, [] => []
  | cnt, d :: rest =>
    if limitHit pg cnt then frGo rx pg cnt rest
    else if pgAfterSet pg && cnt == -1 then
      frGo rx pg (if (pg.bind (·.after)) == some d._id then 0 else -1) rest
    else if docMatches rx d then
      d :: frGo rx pg (if pg.isSome then cnt + 1 else cnt) rest
    else frGo rx pg cnt rest

/-- Model of `filterResults(results, search, pagination)`; `pg = none` models the
two-argument call in `getTotalCount` (pagination `undefined`). -/
def filterResults (rx : String → Bool) (results : List Doc)
    (pg : Option Pagination) : List Doc :=
  frGo rx pg (if pgAfterSet pg then -1 else 0) results

/-! ## The memoized operations

Each operation takes the configuration and state and returns
`(result, new state, number of Model.aggregate calls issued)`. -/

/-- Model of `getTotalCount()`. -/
def getTotalCount (c : Cfg) (s : PagState) : Except Err Nat × PagState × Nat :=
  match s.count with
  | some r => (r, s, 0)
  | none =>
    let r : Except Err Nat :=
      match truthyS c.search with
      | some _ =>
        .ok (filterResults c.rx (docsOf (aggregate c.coll s.pipeline)) none).length
      | none =>
        let p := (s.pipeline ++ [Stage.scount "count"]).filter (fun st => !st.isProject)
        .ok (match aggregate c.coll p with | .cnt _ n :: _ => n | _ => 0)
    (r, { s with count := some r }, 1)

/-- Model of `findCursorModel(id)`: unshifts `{$match: {_id: id}}` onto a copy of the
base pipeline; throws when no record matches. Memoized under the single
`promises.model` slot regardless of the id argument. -/
def findCursorModel (c : Cfg) (s : PagState) (i : Nat) :
    Except Err Doc × PagState × Nat :=
  match s.model with
  | some r => (r, s, 0)
  | none =>
    let r : Except Err Doc :=
      match docsOf (aggregate c.coll (.smatch (.idEq i) :: s.pipeline)) with
      | [] => .error (.cursorNotFound i)
      | d :: _ => .ok d
    (r, { s with model := some r }, 1)

/-- The after-boundary `$match` condition: when both `sort.field` and
`sort.order` are truthy, the disjunction
`{$or: [{field: {$gt|$lt: cursorModel[field]}}, {_id: {$gt: after}}]}`
(`$gt` iff `sort.order == 1`); otherwise only `{$or: [{_id: {$gt: after}}]}`. -/
def boundaryCond (c : Cfg) (cm : Doc) (a : Nat) : Cond :=
  match truthyS c.sort.field, truthyI c.sort.order with
  | some f, some o => .orCmp f (o == 1) (cm.get f) a
  | _, _ => .orId a

/-- Model of `aggregationAddPagination(aggregationPipeline, after)`: copies the
argument pipeline, appends the after-boundary `$match` (resolving the cursor
first) when `after` is truthy, sets `this.perPage = pagination.first || 25`,
and appends `$limit perPage`. A throw from `findCursorModel` propagates
before `perPage` is assigned. -/
def aggregationAddPagination (c : Cfg) (s : PagState) (pipe : List Stage)
    (after : Option Nat) : Except Err (List Stage) × PagState × Nat :=
  match after with
  | none =>
    let pp := perPageOf c.pagination.first
    (.ok (pipe ++ [.slimit pp]), { s with perPage := some pp }, 0)
  | some a =>
    match findCursorModel c s a with
    | (.error e, s', n) => (.error e, s', n)
    | (.ok cm, s', n) =>
      let pp := perPageOf c.pagination.first
      (.ok (pipe ++ [.smatch (boundaryCond c cm a), .slimit pp]),
        { s' with perPage := some pp }, n)

/-- Body of `getEdges()`, unmemoized. Native mode runs the paginated pipeline;
search mode runs the bare base pipeline and post-filters client-side. -/
def getEdgesRun (c : Cfg) (s : PagState) :
    Except Err (List Edge) × PagState × Nat :=
  match truthyS c.search with
  | none =>
    match aggregationAddPagination c s s.pipeline c.pagination.after with
    | (.error e, s', n) => (.error e, s', n)
    | (.ok p, s', n) =>
      let docs := docsOf (aggregate c.coll p)
      (.ok (docs.map (fun d => ⟨d, d._id⟩)), s', n + 1)
  | some _ =>
    let docs := filterResults c.rx (docsOf (aggregate c.coll s.pipeline))
      (some c.pagination)
    (.ok (docs.map (fun d => ⟨d, d._id⟩)), s, 1)

/-- Model of `getEdges()`. -/
def getEdges (c : Cfg) (s : PagState) : Except Err (List Edge) × PagState × Nat :=
  match s.edge with
  | some r => (r, s, 0)
  | none =>
    match getEdgesRun c s with
    | (r, s', n) => (r, { s' with edge := some r }, n)

/-- Model of `getEndCursor()`: `null` for an empty page, else the last edge's cursor. -/
def getEndCursor (c : Cfg) (s : PagState) :
    Except Err (Option Nat) × PagState × Nat :=
  match s.cursor with
  | some r => (r, s, 0)
  | none =>
    match getEdges c s with
    | (.error e, s', n) => (.error e, { s' with cursor := some (.error e) }, n)
    | (.ok es, s', n) =>
      let r : Except Err (Option Nat) := .ok (es.getLast?.map (·.cursor))
      (r, { s' with cursor := some r }, n)

/-- Model of `hasNextPage()`: re-runs `aggregationAddPagination` with
`(await this.getEndCursor())._id` as the boundary and tests for a nonempty
result. On a `null` end cursor the `._id` access throws (`Err.nullDeref`);
on an ObjectId it returns the cursor itself. -/
def hasNextPage (c : Cfg) (s : PagState) : Except Err Bool × PagState × Nat :=
  match s.nextPage with
  | some r => (r, s, 0)
  | none =>
    match getEndCursor c s with
    | (.error e, s', n) =>
      ((.error e : Except Err Bool), { s' with nextPage := some (.error e) }, n)
    | (.ok none, s', n) =>
      ((.error .nullDeref : Except Err Bool),
        { s' with nextPage := some (.error .nullDeref) }, n)
    | (.ok (some ec), s', n) =>
      match aggregationAddPagination c s' s'.pipeline (some ec) with
      | (.error e, s'', m) =>
        ((.error e : Except Err Bool), { s'' with nextPage := some (.error e) }, n + m)
      | (.ok p, s'', m) =>
        let r : Except Err Bool := .ok (decide (0 < (aggregate c.coll p).length))
        (r, { s'' with nextPage := some r }, n + m + 1)

/-! ## Page iteration (the consecutive-pages scenario of the spec) -/

/-- A freshly constructed native-mode engine (no filters, no search) over a
given collection, base pipeline, sort spec and pagination parameters. -/
def natEngine (coll : List Doc) (base : List Stage) (sort : SortSpec)
    (first after : Option Nat) : Cfg × PagState :=
  let r := constructSrc coll (fun _ => false) base ⟨first, after⟩ sort [] none
  (r.1, r.2.1)

/-- Fetch `n` consecutive pages: each page comes from a freshly constructed
engine whose `after` is the previous page's end cursor; iteration stops when
a page is empty (its end cursor is `null`) or errors. Returns the
concatenated edges. -/
def fetchPages (coll : List Doc) (base : List Stage) (sort : SortSpec)
    (first : Option Nat) : Option Nat → Nat → List Edge
  | _, 0 => []
  | after, n + 1 =>
    let e := natEngine coll base sort first after
    match (getEdges e.1 e.2).1 with
    | .error _ => []
    | .ok es =>
      es ++
        match es.getLast? with
        | some last => fetchPages coll base sort first (some last.cursor) n
        | none => []

/-- All memoized promise slots are still unset. -/
def freshSlots (s : PagState) : Prop :=
  s.count = none ∧ s.model = none ∧ s.edge = none ∧ s.cursor = none ∧
    s.nextPage = none

instance : DecidablePred freshSlots := fun s => by
  unfold freshSlots; infer_instance

/-- Every stage of the pipeline is a `$match` (order-preserving filter). -/
def allMatch (p : List Stage) : Bool :=
  p.all Stage.isMatch

/-- The conjunction of the `$match` conditions of an all-match pipeline. -/
def predOf (p : List Stage) (d : Doc) : Bool :=
  p.all (fun st => match st with | .smatch c => c.holds d | _ => true)

/-- The edge a document is mapped to. -/
def edgeOf (d : Doc) : Edge := ⟨d, d._id⟩

/-- Strictly increasing `_id`s along the collection (ids are unique and
monotonic at creation time). -/
def IdSorted (l : List Doc) : Prop :=
  l.Pairwise (fun a b => a._id < b._id)

instance : DecidablePred IdSorted := fun l => by
  unfold IdSorted; infer_instance

/-! ## Execution lemmas -/

theorem docsOf_map_doc (l : List Doc) : docsOf (l.map .doc) = l := by
  induction l with
  | nil => rfl
  | cons d r ih => simp [docsOf, ih]

theorem docsOf_length_le (l : List Out) : (docsOf l).length ≤ l.length := by
  induction l with
  | nil => simp [docsOf]
  | cons o r ih => cases o <;> simp [docsOf] <;> omega

theorem predOf_cons_match (c : Cond) (p : List Stage) (d : Doc) :
    predOf (.smatch c :: p) d = (c.holds d && predOf p d) := by
  simp [predOf]

theorem allMatch_cons_match (c : Cond) (p : List Stage) :
    allMatch (.smatch c :: p) = allMatch p := by
  simp [allMatch, Stage.isMatch]

/-- An all-`$match` pipeline is an order-preserving filter of its input. -/
theorem foldl_allMatch (p : List Stage) (hm : allMatch p = true) (l : List Doc) :
    p.foldl runStage (l.map .doc) = (l.filter (predOf p)).map .doc := by
  induction p generalizing l with
  | nil =>
    have hp : predOf [] = fun _ => true := by
      funext d; simp [predOf]
    simp [hp]
  | cons st rest ih =>
    cases st with
    | smatch c =>
      have hm' : allMatch rest = true := by
        simpa [allMatch, Stage.isMatch] using hm
      have hstep : runStage (l.map .doc) (.smatch c) = (l.filter (fun d => c.holds d)).map .doc := by
        simp only [runStage]
        rw [List.filter_map]
        congr 1
      rw [List.foldl_cons, hstep, ih hm']
      rw [List.filter_filter]
      congr 1
      apply List.filter_congr
      intro d _
      simp [predOf_cons_match, Bool.and_comm]
    | ssort f o => simp [allMatch, Stage.isMatch] at hm
    | slimit n => simp [allMatch, Stage.isMatch] at hm
    | scount nm => simp [allMatch, Stage.isMatch] at hm
    | sproject keep => simp [allMatch, Stage.isMatch] at hm

theorem aggregate_allMatch (coll : List Doc) (p : List Stage) (hm : allMatch p = true) :
    aggregate coll p = (coll.filter (predOf p)).map .doc :=
  foldl_allMatch p hm coll

theorem aggregate_snoc (coll : List Doc) (p : List Stage) (st : Stage) :
    aggregate coll (p ++ [st]) = runStage (aggregate coll p) st := by
  simp [aggregate, List.foldl_append]

theorem aggregate_snoc2 (coll : List Doc) (p : List Stage) (st₁ st₂ : Stage) :
    aggregate coll (p ++ [st₁, st₂]) = runStage (runStage (aggregate coll p) st₁) st₂ := by
  simp [aggregate, List.foldl_append]

theorem perPageOf_pos (o : Option Nat) : 1 ≤ perPageOf o := by
  match o with
  | none => decide
  | some 0 => decide
  | some (k + 1) => simp [perPageOf]

/-- In an id-sorted list, filtering for ids beyond an element drops exactly
the prefix up to and including it. -/
theorem filter_gt_of_idSorted {l₁ l₂ : List Doc} {d : Doc}
    (h : IdSorted (l₁ ++ d :: l₂)) :
    (l₁ ++ d :: l₂).filter (fun x => decide (d._id < x._id)) = l₂ := by
  rcases List.pairwise_append.1 h with ⟨_, hdl, hcross⟩
  rw [List.filter_append]
  have h1 : l₁.filter (fun x => decide (d._id < x._id)) = [] := by
    rw [List.filter_eq_nil_iff]
    intro a ha
    have : a._id < d._id := hcross a ha d (by simp)
    simp only [decide_eq_true_eq]
    omega
  have h2 : (d :: l₂).filter (fun x => decide (d._id < x._id)) = l₂ := by
    have hall : ∀ a ∈ l₂, decide (d._id < a._id) = true := by
      intro a ha
      have := (List.pairwise_cons.1 hdl).1 a ha
      simp only [decide_eq_true_eq]
      omega
    simp [List.filter_cons, lt_irrefl, List.filter_eq_self.2 hall]
  rw [h1, h2, List.nil_append]

/-- A `take` of a `filter` is nonempty exactly when some element matches
(provided at least one element is taken). -/
theorem take_filter_pos {q : Doc → Bool} {l : List Doc} {n : Nat} (hn : 1 ≤ n) :
    decide (0 < ((l.filter q).take n).length) = l.any q := by
  rcases hf : l.filter q with _ | ⟨d, r⟩
  · have : l.any q = false := by
      rw [← Bool.not_eq_true]
      intro hany
      rcases List.any_eq_true.1 hany with ⟨x, hx, hqx⟩
      have : x ∈ l.filter q := List.mem_filter.2 ⟨hx, hqx⟩
      rw [hf] at this
      simp at this
    simp [this]
  · have hd : d ∈ l.filter q := by rw [hf]; simp
    have : l.any q = true :=
      List.any_eq_true.2 ⟨d, (List.mem_filter.1 hd).1, (List.mem_filter.1 hd).2⟩
    rw [this]
    rcases n with _ | n
    · omega
    · simp

/-! ## Closed forms of the native-mode operations -/

/-- The lookup `findCursorModel` succeeds whenever the wanted id belongs to a document
of the collection passing the (all-match) base pipeline, or the slot already
holds a resolved document. -/
theorem findCursorModel_ok (c : Cfg) (s : PagState) {i : Nat} {d : Doc}
    (hm : allMatch s.pipeline = true)
    (hd : d ∈ c.coll) (hp : predOf s.pipeline d = true) (hi : d._id = i)
    (hmo : s.model = none ∨ ∃ cm, s.model = some (.ok cm)) :
    ∃ cm k, findCursorModel c s i = (.ok cm, { s with model := some (.ok cm) }, k) := by
  rcases hmo with hmo | ⟨cm, hmo⟩
  · have hall : allMatch (Stage.smatch (.idEq i) :: s.pipeline) = true := by
      simpa [allMatch, Stage.isMatch] using hm
    have hmem : d ∈ c.coll.filter (predOf (Stage.smatch (.idEq i) :: s.pipeline)) := by
      refine List.mem_filter.2 ⟨hd, ?_⟩
      rw [predOf_cons_match]
      simp [Cond.holds, hi, hp]
    have hne : c.coll.filter (predOf (Stage.smatch (.idEq i) :: s.pipeline)) ≠ [] :=
      List.ne_nil_of_mem hmem
    rcases hl : c.coll.filter (predOf (Stage.smatch (.idEq i) :: s.pipeline)) with _ | ⟨d₀, r⟩
    · exact absurd hl hne
    · refine ⟨d₀, 1, ?_⟩
      simp only [findCursorModel, hmo, aggregate_allMatch _ _ hall, docsOf_map_doc, hl]
  · refine ⟨cm, 0, ?_⟩
    have hs : { s with model := some (Except.ok cm) } = s := by
      cases s; simp_all
    rw [hs]
    simp [findCursorModel, hmo]

/-- Closed form of native `getEdges` with no `after` over an all-match base. -/
theorem getEdges_noAfter (c : Cfg) (s : PagState)
    (hns : truthyS c.search = none) (ha : c.pagination.after = none)
    (he : s.edge = none) (hm : allMatch s.pipeline = true) :
    getEdges c s =
      (.ok (((c.coll.filter (predOf s.pipeline)).take (perPageOf c.pagination.first)).map edgeOf),
       { s with perPage := some (perPageOf c.pagination.first),
                edge := some (.ok (((c.coll.filter (predOf s.pipeline)).take
                  (perPageOf c.pagination.first)).map edgeOf)) },
       1) := by
  have hagg : aggregate c.coll (s.pipeline ++ [Stage.slimit (perPageOf c.pagination.first)])
      = (((c.coll.filter (predOf s.pipeline)).take (perPageOf c.pagination.first)).map Out.doc) := by
    rw [aggregate_snoc, aggregate_allMatch _ _ hm]
    simp [runStage, List.map_take]
  simp only [getEdges, he, getEdgesRun, hns, ha, aggregationAddPagination, hagg, docsOf_map_doc]
  rfl

/-- Closed form of native `getEdges` with an `after` cursor, when no sort
field is configured and the cursor resolves to a passing document. -/
theorem getEdges_after (c : Cfg) (s : PagState) {a : Nat} {d : Doc}
    (hns : truthyS c.search = none) (ha : c.pagination.after = some a)
    (he : s.edge = none) (hmo : s.model = none ∨ ∃ cm, s.model = some (.ok cm))
    (hm : allMatch s.pipeline = true)
    (hsort : truthyS c.sort.field = none ∨ truthyI c.sort.order = none)
    (hd : d ∈ c.coll) (hp : predOf s.pipeline d = true) (hi : d._id = a) :
    ∃ cm k, getEdges c s =
      (.ok ((((c.coll.filter (predOf s.pipeline)).filter (fun x => decide (a < x._id))).take
          (perPageOf c.pagination.first)).map edgeOf),
       { s with model := some (.ok cm),
                perPage := some (perPageOf c.pagination.first),
                edge := some (.ok ((((c.coll.filter (predOf s.pipeline)).filter
                  (fun x => decide (a < x._id))).take (perPageOf c.pagination.first)).map edgeOf)) },
       k) := by
  rcases findCursorModel_ok c s hm hd hp hi hmo with ⟨cm, k, hfc⟩
  refine ⟨cm, k + 1, ?_⟩
  have hcond : boundaryCond c cm a = Cond.orId a := by
    rcases hsort with h | h <;> rcases hf : truthyS c.sort.field with _ | f <;>
      rcases ho : truthyI c.sort.order with _ | o <;> simp_all [boundaryCond]
  have hagg : aggregate c.coll (s.pipeline ++
        [Stage.smatch (Cond.orId a), Stage.slimit (perPageOf c.pagination.first)])
      = (((c.coll.filter (predOf s.pipeline)).filter (fun x => decide (a < x._id))).take
          (perPageOf c.pagination.first)).map Out.doc := by
    rw [aggregate_snoc2, aggregate_allMatch _ _ hm]
    have h1 : runStage ((c.coll.filter (predOf s.pipeline)).map Out.doc)
        (.smatch (Cond.orId a))
        = ((c.coll.filter (predOf s.pipeline)).filter (fun x => decide (a < x._id))).map
            Out.doc := by
      simp only [runStage]
      rw [List.filter_map]
      rfl
    rw [h1]
    simp [runStage, List.map_take]
  simp only [getEdges, he, getEdgesRun, hns, ha, aggregationAddPagination, hfc, hcond, hagg,
    docsOf_map_doc]
  rfl

theorem IdSorted.filter {l : List Doc} (p : Doc → Bool) (h : IdSorted l) :
    IdSorted (l.filter p) := by
  unfold IdSorted at h ⊢
  exact h.filter p

/-- Executing an all-match pipeline extended with the id-only boundary and a
limit: filter the base result past the boundary id and take a page. -/
theorem aggregate_orId (coll : List Doc) (p : List Stage) (a : Nat) (n : Nat)
    (hm : allMatch p = true) :
    aggregate coll (p ++ [Stage.smatch (Cond.orId a), Stage.slimit n])
      = (((coll.filter (predOf p)).filter (fun x => decide (a < x._id))).take n).map
          Out.doc := by
  rw [aggregate_snoc2, aggregate_allMatch _ _ hm]
  have h1 : runStage ((coll.filter (predOf p)).map Out.doc) (.smatch (Cond.orId a))
      = ((coll.filter (predOf p)).filter (fun x => decide (a < x._id))).map Out.doc := by
    simp only [runStage]
    rw [List.filter_map]
    rfl
  rw [h1]
  simp [runStage, List.map_take]

theorem natEngine_eq (coll : List Doc) (base : List Stage) (first after : Option Nat) :
    natEngine coll base ⟨none, none⟩ first after =
      (⟨coll, ⟨none, none⟩, ⟨first, after⟩, none, fun _ => false⟩, { pipeline := base }) := by
  simp [natEngine, constructSrc, sortStageOf, truthyS]

/-! ## The consecutive-pages induction (no sort field configured) -/

theorem fetchPages_cursor (coll : List Doc) (base : List Stage) (first : Option Nat)
    (hid : IdSorted coll) (hm : allMatch base = true) :
    ∀ (n : Nat) (pre : List Doc) (cur : Doc) (l₂ : List Doc),
      coll.filter (predOf base) = pre ++ cur :: l₂ →
      fetchPages coll base ⟨none, none⟩ first (some cur._id) n =
        (l₂.take (n * perPageOf first)).map edgeOf := by
  intro n
  induction n with
  | zero => intro pre cur l₂ _; simp [fetchPages]
  | succ n ih =>
    intro pre cur l₂ hsplit
    have hmemf : cur ∈ coll.filter (predOf base) := by rw [hsplit]; simp
    have hmem : cur ∈ coll := (List.mem_filter.1 hmemf).1
    have hpred : predOf base cur = true := (List.mem_filter.1 hmemf).2
    have hsorted : IdSorted (coll.filter (predOf base)) := hid.filter _
    have hflt : (coll.filter (predOf base)).filter (fun x => decide (cur._id < x._id)) = l₂ := by
      rw [hsplit] at hsorted ⊢
      exact filter_gt_of_idSorted hsorted
    obtain ⟨cm, k, hE⟩ := getEdges_after
      (c := ⟨coll, ⟨none, none⟩, ⟨first, some cur._id⟩, none, fun _ => false⟩)
      (s := { pipeline := base }) rfl rfl rfl (Or.inl rfl) hm (Or.inl rfl) hmem hpred rfl
    rw [hflt] at hE
    set pp := perPageOf first with hpp
    have hpp1 : 1 ≤ pp := perPageOf_pos first
    rcases hl₂ : l₂ with _ | ⟨d₂, l₂'⟩
    · subst hl₂
      simp only [fetchPages, natEngine_eq, hE]
      simp
    · rw [← hl₂]
      have hl₂ne : l₂ ≠ [] := by rw [hl₂]; simp
      set t := l₂.take pp with hdt
      have ht : t ≠ [] := by
        rw [hdt, Ne, List.take_eq_nil_iff]
        push_neg
        exact ⟨by omega, hl₂ne⟩
      set tl := t.getLast ht with htl
      have hlast : (t.map edgeOf).getLast? = some (edgeOf tl) := by
        rw [List.getLast?_map, List.getLast?_eq_getLast t ht]
        rfl
      have h1 : t ++ l₂.drop pp = l₂ := List.take_append_drop pp l₂
      have h2 : t.dropLast ++ [tl] = t := List.dropLast_append_getLast ht
      have hl₂eq : l₂ = t.dropLast ++ tl :: l₂.drop pp := by
        conv_lhs => rw [← h1]
        calc t ++ l₂.drop pp = (t.dropLast ++ [tl]) ++ l₂.drop pp := by rw [h2]
          _ = t.dropLast ++ tl :: l₂.drop pp := by simp
      have hsplit' : coll.filter (predOf base)
          = (pre ++ cur :: t.dropLast) ++ tl :: l₂.drop pp := by
        rw [hsplit]
        conv_lhs => rw [hl₂eq]
        simp
      have hrec := ih (pre ++ cur :: t.dropLast) tl (l₂.drop pp) hsplit'
      simp only [fetchPages, natEngine_eq, hE, hlast]
      rw [show (edgeOf tl).cursor = tl._id from rfl, hrec, ← List.map_append]
      rw [show (n + 1) * pp = pp + n * pp by ring, List.take_add]

/-- The core pagination law in the no-sort-field case: `n` consecutive
pages concatenate to the first `n * perPage` documents of the base
pipeline's execution. -/
theorem fetchPages_take (coll : List Doc) (base : List Stage) (first : Option Nat)
    (n : Nat) (hid : IdSorted coll) (hm : allMatch base = true) :
    fetchPages coll base ⟨none, none⟩ first none n =
      ((coll.filter (predOf base)).take (n * perPageOf first)).map edgeOf := by
  rcases n with _ | n
  · simp [fetchPages]
  · have hE := getEdges_noAfter
      (c := ⟨coll, ⟨none, none⟩, ⟨first, none⟩, none, fun _ => false⟩)
      (s := { pipeline := base }) rfl rfl rfl hm
    set l := coll.filter (predOf base) with hl
    set pp := perPageOf first with hpp
    have hpp1 : 1 ≤ pp := perPageOf_pos first
    rcases hle : l with _ | ⟨d₀, l'⟩
    · rw [hle] at hE
      simp only [fetchPages, natEngine_eq, hE]
      simp [hle]
    · rw [← hle]
      have hlne : l ≠ [] := by rw [hle]; simp
      set t := l.take pp with hdt
      have ht : t ≠ [] := by
        rw [hdt, Ne, List.take_eq_nil_iff]
        push_neg
        exact ⟨by omega, hlne⟩
      set tl := t.getLast ht with htl
      have hlast : (t.map edgeOf).getLast? = some (edgeOf tl) := by
        rw [List.getLast?_map, List.getLast?_eq_getLast t ht]
        rfl
      have h1 : t ++ l.drop pp = l := List.take_append_drop pp l
      have h2 : t.dropLast ++ [tl] = t := List.dropLast_append_getLast ht
      have hleq : l = t.dropLast ++ tl :: l.drop pp := by
        conv_lhs => rw [← h1]
        calc t ++ l.drop pp = (t.dropLast ++ [tl]) ++ l.drop pp := by rw [h2]
          _ = t.dropLast ++ tl :: l.drop pp := by simp
      have hrec := fetchPages_cursor coll base first hid hm n t.dropLast tl (l.drop pp)
        (by rw [← hl]; exact hleq)
      simp only [fetchPages, natEngine_eq, hE, hlast]
      rw [show (edgeOf tl).cursor = tl._id from rfl, hrec, ← List.map_append]
      rw [show (n + 1) * pp = pp + n * pp by ring, List.take_add]

/-! ## Claim C1 -/

/-- A three-document collection with monotonic ids and a descending sort. -/
def c1coll : List Doc := [⟨1, [("score", 5)]⟩, ⟨2, [("score", 7)]⟩, ⟨3, [("score", 3)]⟩]

/-- Claim C1, counterexample. With a descending sort on `score`, ids
`1,2,3`, scores `5,7,3`, `perPage 2`: two consecutive pages yield cursors
`[2, 1, 2, 3]` — document 2 is returned twice — whereas the first
`2 * perPage` records of the base-plus-sort execution are `[2, 1, 3]`.
The concatenation is neither equal to that prefix nor duplicate-free, so
the pagination law as claimed fails even for monotonic ids. -/
theorem c1_counterexample :
    (fetchPages c1coll [] ⟨some "score", some (-1)⟩ (some 2) none 2).map Edge.cursor
        = [2, 1, 2, 3] ∧
      ((docsOf (aggregate c1coll [Stage.ssort "score" (-1)])).take
          (2 * perPageOf (some 2))).map Doc._id = [2, 1, 3] ∧
      fetchPages c1coll [] ⟨some "score", some (-1)⟩ (some 2) none 2
        ≠ ((docsOf (aggregate c1coll [Stage.ssort "score" (-1)])).take
            (2 * perPageOf (some 2))).map edgeOf ∧
      ¬ ((fetchPages c1coll [] ⟨some "score", some (-1)⟩ (some 2) none 2).map
          Edge.cursor).Nodup := by
  decide

/-- Claim C1, amended: the pagination law holds when no sort field is
configured (ordering is by monotonic ids) and the base pipeline consists of
`$match` stages: fetching `n` consecutive pages by repeatedly constructing
an engine whose `after` is the previous page's end cursor concatenates to
exactly the first `n * perPage` records of the base pipeline's execution
(all of them if fewer exist), with no duplication or omission. -/
theorem c1_amended_law (coll : List Doc) (base : List Stage) (first : Option Nat)
    (n : Nat) (hid : IdSorted coll) (hm : allMatch base = true) :
    fetchPages coll base ⟨none, none⟩ first none n =
      ((coll.filter (predOf base)).take (n * perPageOf first)).map edgeOf :=
  fetchPages_take coll base first n hid hm

/-- Claim C1, witness for the amended law: five documents, `perPage 2`,
three pages concatenate to all five documents in order. -/
theorem c1_witness :
    IdSorted [(⟨1, []⟩ : Doc), ⟨2, []⟩, ⟨3, []⟩, ⟨4, []⟩, ⟨5, []⟩] ∧
      allMatch [] = true ∧
      fetchPages [⟨1, []⟩, ⟨2, []⟩, ⟨3, []⟩, ⟨4, []⟩, ⟨5, []⟩] [] ⟨none, none⟩
          (some 2) none 3
        = (([(⟨1, []⟩ : Doc), ⟨2, []⟩, ⟨3, []⟩, ⟨4, []⟩, ⟨5, []⟩].filter
            (predOf [])).take (3 * perPageOf (some 2))).map edgeOf :=
  ⟨by decide, by decide,
    c1_amended_law [⟨1, []⟩, ⟨2, []⟩, ⟨3, []⟩, ⟨4, []⟩, ⟨5, []⟩] [] (some 2) 3
      (by decide) (by decide)⟩

/-! ## Claim C2 -/

/-- A two-document collection sorted descending by `score`. -/
def c2coll : List Doc := [⟨1, [("score", 5)]⟩, ⟨2, [("score", 7)]⟩]

/-- Claim C2, counterexample. Descending sort on `score`, `perPage 2`, no
`after`: the single page holds both documents, so the end cursor (id 1) is
the last record of the sorted execution and no record lies beyond it — yet
`hasNextPage()` resolves `true`, because the boundary disjunction
`(score < 5) OR (_id > 1)` re-admits document 2. -/
theorem c2_counterexample :
    (getEdges (natEngine c2coll [] ⟨some "score", some (-1)⟩ (some 2) none).1
        (natEngine c2coll [] ⟨some "score", some (-1)⟩ (some 2) none).2).1
      = .ok [⟨⟨2, [("score", 7)]⟩, 2⟩, ⟨⟨1, [("score", 5)]⟩, 1⟩] ∧
    (docsOf (aggregate c2coll [Stage.ssort "score" (-1)])).getLast?
      = some ⟨1, [("score", 5)]⟩ ∧
    (hasNextPage (natEngine c2coll [] ⟨some "score", some (-1)⟩ (some 2) none).1
        (natEngine c2coll [] ⟨some "score", some (-1)⟩ (some 2) none).2).1
      = .ok true := by
  refine ⟨by decide, by decide, by decide⟩

/-- Claim C2, amended: on a freshly constructed native-mode engine with no
sort field and an all-match base pipeline, when `getEdges()` resolves to a
nonempty page with end cursor `ec`, `hasNextPage()` resolves to `true` iff
some record of the base pipeline's execution has `_id` strictly beyond
`ec` (in particular `false` when the end cursor is the last record); it is
computed by re-running the page pipeline with `ec` as the `after` boundary. -/
theorem c2_amended (coll : List Doc) (base : List Stage) (first after : Option Nat)
    (es : List Edge) (ec : Nat) (hm : allMatch base = true)
    (hE : (getEdges (natEngine coll base ⟨none, none⟩ first after).1
        (natEngine coll base ⟨none, none⟩ first after).2).1 = .ok es)
    (hne : es ≠ []) (hec : es.getLast?.map Edge.cursor = some ec) :
    (hasNextPage (natEngine coll base ⟨none, none⟩ first after).1
        (natEngine coll base ⟨none, none⟩ first after).2).1
      = .ok ((docsOf (aggregate coll base)).any (fun x => decide (ec < x._id))) := by
  simp only [natEngine_eq] at hE ⊢
  have hbase : docsOf (aggregate coll base) = coll.filter (predOf base) := by
    rw [aggregate_allMatch _ _ hm, docsOf_map_doc]
  rw [hbase]
  have hpp1 : 1 ≤ perPageOf first := perPageOf_pos _
  rcases after with _ | a
  · -- pagination.after absent: the page is a prefix of the base results
    have hEc := getEdges_noAfter
      (c := ⟨coll, ⟨none, none⟩, ⟨first, none⟩, none, fun _ => false⟩)
      (s := { pipeline := base }) rfl rfl rfl hm
    rw [hEc] at hE
    have hes : ((coll.filter (predOf base)).take (perPageOf first)).map edgeOf = es := by
      simpa using hE
    subst hes
    have htne : (coll.filter (predOf base)).take (perPageOf first) ≠ [] := by
      simpa using hne
    set tl := ((coll.filter (predOf base)).take (perPageOf first)).getLast htne with htldef
    have hlm : (((coll.filter (predOf base)).take (perPageOf first)).map edgeOf).getLast?
        = some (edgeOf tl) := by
      rw [List.getLast?_map, List.getLast?_eq_getLast _ htne]
      rfl
    have hecq : ec = tl._id := by
      rw [hlm] at hec
      simp [edgeOf] at hec
      omega
    subst hecq
    have hmeml : tl ∈ coll.filter (predOf base) :=
      List.mem_of_mem_take (List.getLast_mem htne)
    obtain ⟨cm, k, hfc⟩ := findCursorModel_ok
      (c := ⟨coll, ⟨none, none⟩, ⟨first, none⟩, none, fun _ => false⟩)
      (s := { pipeline := base, perPage := some (perPageOf first),
              edge := some (.ok (((coll.filter (predOf base)).take
                (perPageOf first)).map edgeOf)),
              cursor := some (.ok (some tl._id)) })
      hm (List.mem_filter.1 hmeml).1 (List.mem_filter.1 hmeml).2 rfl (Or.inl rfl)
    have hcur : getEndCursor
        (⟨coll, ⟨none, none⟩, ⟨first, none⟩, none, fun _ => false⟩ : Cfg)
        ({ pipeline := base } : PagState)
        = (.ok (some tl._id),
           { pipeline := base, perPage := some (perPageOf first),
             edge := some (.ok (((coll.filter (predOf base)).take
               (perPageOf first)).map edgeOf)),
             cursor := some (.ok (some tl._id)) }, 1) := by
      simp only [getEndCursor, hEc, hlm]
      simp [edgeOf]
    simp only [hasNextPage, hcur, aggregationAddPagination, boundaryCond, truthyS, truthyI,
      hfc, aggregate_orId coll base tl._id (perPageOf first) hm, List.length_map]
    rw [take_filter_pos hpp1]
  · -- pagination.after present: invert the cursor resolution
    rcases hdl : docsOf (aggregate coll (Stage.smatch (Cond.idEq a) :: base))
      with _ | ⟨d0, rest⟩
    · -- cursor not found: getEdges would have rejected, contradicting hE
      have hfm : findCursorModel
          (⟨coll, ⟨none, none⟩, ⟨first, some a⟩, none, fun _ => false⟩ : Cfg)
          ({ pipeline := base } : PagState) a
          = (.error (.cursorNotFound a),
             { pipeline := base, model := some (.error (.cursorNotFound a)) }, 1) := by
        simp only [findCursorModel, hdl]
      simp only [getEdges, getEdgesRun, aggregationAddPagination, truthyS, hfm] at hE
      simp at hE
    · have hfm : findCursorModel
          (⟨coll, ⟨none, none⟩, ⟨first, some a⟩, none, fun _ => false⟩ : Cfg)
          ({ pipeline := base } : PagState) a
          = (.ok d0, { pipeline := base, model := some (.ok d0) }, 1) := by
        simp only [findCursorModel, hdl]
      have hEc : getEdges
          (⟨coll, ⟨none, none⟩, ⟨first, some a⟩, none, fun _ => false⟩ : Cfg)
          ({ pipeline := base } : PagState)
          = (.ok ((((coll.filter (predOf base)).filter
                (fun x => decide (a < x._id))).take (perPageOf first)).map edgeOf),
             { pipeline := base, model := some (.ok d0),
               perPage := some (perPageOf first),
               edge := some (.ok ((((coll.filter (predOf base)).filter
                 (fun x => decide (a < x._id))).take (perPageOf first)).map edgeOf)) },
             2) := by
        simp only [getEdges, getEdgesRun, aggregationAddPagination, boundaryCond, truthyS,
          truthyI, hfm, aggregate_orId coll base a (perPageOf first) hm, docsOf_map_doc]
        rfl
      rw [hEc] at hE
      have hes : (((coll.filter (predOf base)).filter
          (fun x => decide (a < x._id))).take (perPageOf first)).map edgeOf = es := by
        simpa using hE
      subst hes
      have htne : ((coll.filter (predOf base)).filter
          (fun x => decide (a < x._id))).take (perPageOf first) ≠ [] := by
        simpa using hne
      set tl := (((coll.filter (predOf base)).filter
        (fun x => decide (a < x._id))).take (perPageOf first)).getLast htne with htldef
      have hlm : ((((coll.filter (predOf base)).filter
            (fun x => decide (a < x._id))).take (perPageOf first)).map edgeOf).getLast?
          = some (edgeOf tl) := by
        rw [List.getLast?_map, List.getLast?_eq_getLast _ htne]
        rfl
      have hecq : ec = tl._id := by
        rw [hlm] at hec
        simp [edgeOf] at hec
        omega
      subst hecq
      have hcur : getEndCursor
          (⟨coll, ⟨none, none⟩, ⟨first, some a⟩, none, fun _ => false⟩ : Cfg)
          ({ pipeline := base } : PagState)
          = (.ok (some tl._id),
             { pipeline := base, model := some (.ok d0),
               perPage := some (perPageOf first),
               edge := some (.ok ((((coll.filter (predOf base)).filter
                 (fun x => decide (a < x._id))).take (perPageOf first)).map edgeOf)),
               cursor := some (.ok (some tl._id)) }, 2) := by
        simp only [getEndCursor, hEc, hlm]
        simp [edgeOf]
      simp only [hasNextPage, hcur, aggregationAddPagination, boundaryCond, findCursorModel,
        truthyS, truthyI, aggregate_orId coll base tl._id (perPageOf first) hm,
        List.length_map]
      rw [take_filter_pos hpp1]

/-- Claim C2, witness: two documents, `perPage 1`: the page ends at id 1 and
a record with a greater id exists, so `hasNextPage()` resolves `true`. -/
theorem c2_witness :
    (hasNextPage (natEngine [⟨1, []⟩, ⟨2, []⟩] [] ⟨none, none⟩ (some 1) none).1
        (natEngine [⟨1, []⟩, ⟨2, []⟩] [] ⟨none, none⟩ (some 1) none).2).1
      = .ok ((docsOf (aggregate [⟨1, []⟩, ⟨2, []⟩] [])).any
          (fun x => decide (1 < x._id))) :=
  c2_amended [⟨1, []⟩, ⟨2, []⟩] [] (some 1) none [⟨⟨1, []⟩, 1⟩] 1
    (by decide) (by decide) (by decide) (by decide)

/-! ## Claim C3 -/

/-- Claim C3, counterexample. Under a descending sort, the boundary
condition for a cursor whose `score` is 5 and id is 10 admits the document
with `score 7, id 11`: its score is not strictly past the boundary
(`7 < 5` fails) and not tied with it (`7 ≠ 5`), so the disjunction admits
strictly more than the claimed set. -/
theorem c3_counterexample :
    (Cond.orCmp "score" false (some 5) 10).holds ⟨11, [("score", 7)]⟩ = true ∧
      (⟨11, [("score", 7)]⟩ : Doc).get "score" = some 7 ∧
      ¬ ((7 : Int) < 5) ∧ (7 : Int) ≠ 5 := by
  decide

/-- Claim C3, amended: with `after` truthy and a resolved cursor document
`cm`, `aggregationAddPagination` appends exactly one `$match` stage holding
`boundaryCond` followed by the `$limit`; the boundary is
`(sortField < cm[sortField]) OR (_id > after)` for a descending sort,
`(sortField > cm[sortField]) OR (_id > after)` for an ascending one, and
`(_id > after)` alone when no sort field is configured. The disjunction
admits exactly the records strictly past the boundary on the sort key
**or with a strictly greater identifier** (not merely those tied on the
sort key with a greater identifier). -/
theorem c3_amended (c : Cfg) (s : PagState) (pipe : List Stage) (a : Nat)
    (cm : Doc) (s' : PagState) (k : Nat)
    (hfc : findCursorModel c s a = (.ok cm, s', k)) :
    aggregationAddPagination c s pipe (some a)
      = (.ok (pipe ++ [Stage.smatch (boundaryCond c cm a),
          Stage.slimit (perPageOf c.pagination.first)]),
         { s' with perPage := some (perPageOf c.pagination.first) }, k)
    ∧ (∀ f o, truthyS c.sort.field = some f → truthyI c.sort.order = some o →
        boundaryCond c cm a = .orCmp f (o == 1) (cm.get f) a)
    ∧ (truthyS c.sort.field = none ∨ truthyI c.sort.order = none →
        boundaryCond c cm a = .orId a)
    ∧ (∀ f gt b d, (Cond.orCmp f gt b a).holds d
        = (cmpB gt (d.get f) b || decide (a < d._id)))
    ∧ (∀ d, (Cond.orId a).holds d = decide (a < d._id)) := by
  refine ⟨?_, ?_, ?_, fun f gt b d => rfl, fun d => rfl⟩
  · simp only [aggregationAddPagination, hfc]
  · intro f o hf ho
    simp [boundaryCond, hf, ho]
  · intro h
    rcases h with h | h <;> rcases hf : truthyS c.sort.field with _ | f <;>
      rcases ho : truthyI c.sort.order with _ | o <;> simp_all [boundaryCond]

/-- Claim C3, witness: the appended stages on a concrete engine with a
descending sort and cursor id 1. -/
theorem c3_witness :
    aggregationAddPagination
        (⟨[⟨1, [("score", 5)]⟩], ⟨some "score", some (-1)⟩, ⟨none, some 1⟩, none,
          fun _ => false⟩ : Cfg)
        ({ pipeline := [] } : PagState) [] (some 1)
      = (.ok [Stage.smatch (boundaryCond
            (⟨[⟨1, [("score", 5)]⟩], ⟨some "score", some (-1)⟩, ⟨none, some 1⟩, none,
              fun _ => false⟩ : Cfg) ⟨1, [("score", 5)]⟩ 1),
          Stage.slimit 25],
         { pipeline := [], model := some (.ok ⟨1, [("score", 5)]⟩),
           perPage := some 25 }, 1) :=
  ((c3_amended _ _ [] 1 ⟨1, [("score", 5)]⟩
      ({ pipeline := [], model := some (.ok ⟨1, [("score", 5)]⟩) } : PagState) 1
      (by decide)).1)

/-! ## Claim C4: the client-side result filter -/

/-- With no pagination object (the `getTotalCount` call), `filterResults`
is a plain pattern filter. -/
theorem frGo_none (rx : String → Bool) (cnt : Int) (l : List Doc) :
    frGo rx none cnt l = l.filter (docMatches rx) := by
  induction l generalizing cnt with
  | nil => simp [frGo]
  | cons d rest ih =>
    simp only [frGo, limitHit, pgAfterSet, Bool.false_and, Bool.false_eq_true, if_false]
    rcases hdm : docMatches rx d with _ | _ <;>
      simp [List.filter_cons, hdm, ih]

/-- Outside skip mode, the filter includes pattern matches until the
counter reaches `first`: a `take` of the filtered list. -/
theorem frGo_count (rx : String → Bool) (p : Pagination) (k : Nat)
    (hk : p.first = some k) (l : List Doc) :
    ∀ cnt : Int, 0 ≤ cnt → cnt ≤ (k : Int) →
      frGo rx (some p) cnt l = (l.filter (docMatches rx)).take ((k : Int) - cnt).toNat := by
  induction l with
  | nil => intro cnt h0 hle; simp [frGo]
  | cons d rest ih =>
    intro cnt h0 hle
    by_cases hhit : cnt = (k : Int)
    · subst hhit
      have hLH : limitHit (some p) (k : Int) = true := by simp [limitHit, hk]
      have htn : (((k : Int)) - (k : Int)).toNat = 0 := by omega
      simp only [frGo, hLH, if_true]
      rw [ih (k : Int) (by omega) (by omega)]
      simp [htn]
    · have hLH : limitHit (some p) cnt = false := by
        simp only [limitHit, hk]
        rw [beq_eq_false_iff_ne]
        omega
      have hskip : (pgAfterSet (some p) && cnt == (-1 : Int)) = false := by
        have h1 : (cnt == (-1 : Int)) = false := by
          rw [beq_eq_false_iff_ne]
          omega
        simp [h1]
      simp only [frGo, hLH, hskip, Bool.false_eq_true, if_false]
      rcases hdm : docMatches rx d with _ | _
      · simp only [Bool.false_eq_true, if_false]
        rw [ih cnt h0 hle]
        simp [List.filter_cons, hdm]
      · have h1 : (0 : Int) ≤ cnt + 1 := by omega
        have h2 : cnt + 1 ≤ (k : Int) := by omega
        have htn : ((k : Int) - cnt).toNat = ((k : Int) - (cnt + 1)).toNat + 1 := by omega
        simp only [hdm, if_true, Option.isSome_some]
        rw [ih (cnt + 1) h1 h2]
        simp [List.filter_cons, hdm, htn]

/-- In skip mode the filter discards everything up to and including the
first record whose id equals `after`, then restarts with counter 0. -/
theorem frGo_skip (rx : String → Bool) (p : Pagination) (a : Nat)
    (ha : p.after = some a) (l : List Doc) :
    frGo rx (some p) (-1) l
      = frGo rx (some p) 0 ((l.dropWhile (fun d => d._id != a)).drop 1) := by
  induction l with
  | nil => simp [frGo]
  | cons d rest ih =>
    have hLH : limitHit (some p) (-1) = false := by
      rcases hf : p.first with _ | k
      · simp [limitHit, hf]
      · simp only [limitHit, hf]
        rw [beq_eq_false_iff_ne]
        omega
    have hP : pgAfterSet (some p) = true := by simp [pgAfterSet, ha]
    simp only [frGo, hLH, hP, Bool.false_eq_true, if_false, Bool.true_and]
    by_cases heq : d._id = a
    · have hdw : (d :: rest).dropWhile (fun x => x._id != a) = d :: rest := by
        rw [List.dropWhile_cons]
        simp [heq]
      rw [hdw]
      simp [ha, heq]
    · have hdw : (d :: rest).dropWhile (fun x => x._id != a)
          = rest.dropWhile (fun x => x._id != a) := by
        rw [List.dropWhile_cons]
        simp [heq]
      rw [hdw]
      have hne : (((some p).bind fun q => q.after) == some d._id) = false := by
        rw [beq_eq_false_iff_ne]
        simp only [ha, Option.some_bind]
        intro h
        exact heq (Option.some.inj h).symm
      simp only [hne, Bool.false_eq_true, if_false]
      exact ih

/-- The two-argument call used by `getTotalCount`: a pure pattern filter. -/
theorem filterResults_none (rx : String → Bool) (l : List Doc) :
    filterResults rx l none = l.filter (docMatches rx) := by
  simp [filterResults, pgAfterSet, frGo_none]

/-- Evaluating `filterResults` with `first` but no `after`: the first `k` matches. -/
theorem filterResults_first (rx : String → Bool) (l : List Doc) (k : Nat) :
    filterResults rx l (some ⟨some k, none⟩) = (l.filter (docMatches rx)).take k := by
  have h := frGo_count rx ⟨some k, none⟩ k rfl l 0 (by omega) (by omega)
  simpa [filterResults, pgAfterSet] using h

/-- Evaluating `filterResults` with both `first` and `after`: drop up to and including
the cursor record, then take the first `k` pattern matches. -/
theorem filterResults_after (rx : String → Bool) (l : List Doc) (k a : Nat) :
    filterResults rx l (some ⟨some k, some a⟩)
      = (((l.dropWhile (fun d => d._id != a)).drop 1).filter (docMatches rx)).take k := by
  have h1 : filterResults rx l (some ⟨some k, some a⟩)
      = frGo rx (some ⟨some k, some a⟩) (-1) l := by
    simp [filterResults, pgAfterSet]
  rw [h1, frGo_skip rx _ a rfl l,
    frGo_count rx _ k rfl _ 0 (by omega) (by omega)]
  simp

/-- Claim C4: with `after` and `first` set, `filterResults` drops every
record up to and including the first one whose id equals `after`, then
keeps the pattern matches among the remainder, truncated at `first`
matches; when `after` never occurs in the input the result is empty (a
silent empty page). -/
theorem c4_result_filter (rx : String → Bool) (l : List Doc) (k a : Nat) :
    filterResults rx l (some ⟨some k, some a⟩)
      = (((l.dropWhile (fun d => d._id != a)).drop 1).filter (docMatches rx)).take k
    ∧ ((∀ d ∈ l, d._id ≠ a) → filterResults rx l (some ⟨some k, some a⟩) = []) := by
  refine ⟨filterResults_after rx l k a, fun hall => ?_⟩
  rw [filterResults_after rx l k a]
  have hdw : l.dropWhile (fun d => d._id != a) = [] := by
    rw [List.dropWhile_eq_nil_iff]
    intro x hx
    simp [hall x hx]
  simp [hdw]

/-- Claim C4, witness: ids `1..4`, cursor `after = 2`, `first = 1`: the
filter drops ids 1 and 2, then keeps the first match among ids 3 and 4. -/
theorem c4_witness :
    filterResults (fun v => v == "5")
        [⟨1, [("v", 5)]⟩, ⟨2, [("v", 5)]⟩, ⟨3, [("v", 6)]⟩, ⟨4, [("v", 5)]⟩]
        (some ⟨some 1, some 2⟩)
      = ((([(⟨1, [("v", 5)]⟩ : Doc), ⟨2, [("v", 5)]⟩, ⟨3, [("v", 6)]⟩,
          ⟨4, [("v", 5)]⟩].dropWhile (fun d => d._id != 2)).drop 1).filter
            (docMatches (fun v => v == "5"))).take 1 :=
  (c4_result_filter (fun v => v == "5")
    [⟨1, [("v", 5)]⟩, ⟨2, [("v", 5)]⟩, ⟨3, [("v", 6)]⟩, ⟨4, [("v", 5)]⟩] 1 2).1

/-! ## Claim C5: CursorNotFound propagation -/

/-- Claim C5, counterexample. With a stale cursor (`after = 99` over a
collection holding only id 1), `getEdges()` rejects with CursorNotFound but
`getTotalCount()` resolves normally to 1: in native mode `getTotalCount`
never resolves `pagination.after`, so the error does **not** surface
through it, contrary to the claim. -/
theorem c5_counterexample :
    (getTotalCount (natEngine [⟨1, []⟩] [] ⟨none, none⟩ none (some 99)).1
        (natEngine [⟨1, []⟩] [] ⟨none, none⟩ none (some 99)).2).1 = .ok 1 ∧
    (getEdges (natEngine [⟨1, []⟩] [] ⟨none, none⟩ none (some 99)).1
        (natEngine [⟨1, []⟩] [] ⟨none, none⟩ none (some 99)).2).1
      = .error (.cursorNotFound 99) := by
  refine ⟨by decide, by decide⟩

/-- Claim C5, amended: `findCursorModel` fails with CursorNotFound exactly
when the base pipeline prefixed with the `{_id: after}` match yields zero
records, and in native mode the error surfaces, unretried, through
`getEdges()` and `hasNextPage()` — but **not** through `getTotalCount()`,
which ignores `pagination.after` entirely and still resolves a count. -/
theorem c5_amended (c : Cfg) (s : PagState) (a : Nat)
    (hf : freshSlots s) (hns : truthyS c.search = none)
    (ha : c.pagination.after = some a) :
    (docsOf (aggregate c.coll (Stage.smatch (Cond.idEq a) :: s.pipeline)) = [] →
        (findCursorModel c s a).1 = .error (.cursorNotFound a)
      ∧ (getEdges c s).1 = .error (.cursorNotFound a)
      ∧ (hasNextPage c s).1 = .error (.cursorNotFound a)
      ∧ ∃ n, (getTotalCount c s).1 = .ok n)
    ∧ (∀ d rest,
        docsOf (aggregate c.coll (Stage.smatch (Cond.idEq a) :: s.pipeline)) = d :: rest →
        (findCursorModel c s a).1 = .ok d) := by
  obtain ⟨hc0, hmo, he, hcu, hnp⟩ := hf
  constructor
  · intro hdl
    have hfm : findCursorModel c s a
        = (.error (.cursorNotFound a),
           { s with model := some (.error (.cursorNotFound a)) }, 1) := by
      simp only [findCursorModel, hmo, hdl]
    have hE : getEdges c s
        = (.error (.cursorNotFound a),
           { s with model := some (.error (.cursorNotFound a)),
                    edge := some (.error (.cursorNotFound a)) }, 1) := by
      simp only [getEdges, he, getEdgesRun, hns, ha, aggregationAddPagination, hfm]
    have hCur : getEndCursor c s
        = (.error (.cursorNotFound a),
           { s with model := some (.error (.cursorNotFound a)),
                    edge := some (.error (.cursorNotFound a)),
                    cursor := some (.error (.cursorNotFound a)) }, 1) := by
      simp only [getEndCursor, hcu, hE]
    refine ⟨by rw [hfm], by rw [hE], ?_, ?_⟩
    · simp only [hasNextPage, hnp, hCur]
    · refine ⟨(match aggregate c.coll ((s.pipeline ++ [Stage.scount "count"]).filter
        (fun st => !st.isProject)) with | .cnt _ n :: _ => n | _ => 0), ?_⟩
      simp only [getTotalCount, hc0, hns]
  · intro d rest hdl
    simp only [findCursorModel, hmo, hdl]

/-- Claim C5, witness: the amended propagation at the concrete stale-cursor
engine of the counterexample. -/
theorem c5_witness :
    (findCursorModel (natEngine [⟨1, []⟩] [] ⟨none, none⟩ none (some 99)).1
        (natEngine [⟨1, []⟩] [] ⟨none, none⟩ none (some 99)).2 99).1
      = .error (.cursorNotFound 99)
    ∧ (getEdges (natEngine [⟨1, []⟩] [] ⟨none, none⟩ none (some 99)).1
        (natEngine [⟨1, []⟩] [] ⟨none, none⟩ none (some 99)).2).1
      = .error (.cursorNotFound 99)
    ∧ (hasNextPage (natEngine [⟨1, []⟩] [] ⟨none, none⟩ none (some 99)).1
        (natEngine [⟨1, []⟩] [] ⟨none, none⟩ none (some 99)).2).1
      = .error (.cursorNotFound 99)
    ∧ ∃ n, (getTotalCount (natEngine [⟨1, []⟩] [] ⟨none, none⟩ none (some 99)).1
        (natEngine [⟨1, []⟩] [] ⟨none, none⟩ none (some 99)).2).1 = .ok n :=
  (c5_amended (natEngine [⟨1, []⟩] [] ⟨none, none⟩ none (some 99)).1
      (natEngine [⟨1, []⟩] [] ⟨none, none⟩ none (some 99)).2 99
      (by decide) (by decide) (by decide)).1 (by decide)

/-! ## Claim C6: page size bound -/

/-- Any successfully assembled pagination pipeline ends in
`$limit (pagination.first || 25)`. -/
theorem addPagination_shape (c : Cfg) (s : PagState) (pipe : List Stage)
    (after : Option Nat) (p' : List Stage) (s' : PagState) (n : Nat)
    (h : aggregationAddPagination c s pipe after = (.ok p', s', n)) :
    ∃ q, p' = q ++ [Stage.slimit (perPageOf c.pagination.first)] := by
  rcases after with _ | a
  · have h1 := congrArg Prod.fst h
    simp only [aggregationAddPagination] at h1
    simp at h1
    exact ⟨pipe, h1.symm⟩
  · rcases hfc : findCursorModel c s a with ⟨rm, sm, nm⟩
    rcases rm with e | cm
    · have h1 := congrArg Prod.fst h
      simp only [aggregationAddPagination, hfc] at h1
      simp at h1
    · have h1 := congrArg Prod.fst h
      simp only [aggregationAddPagination, hfc] at h1
      simp at h1
      refine ⟨pipe ++ [Stage.smatch (boundaryCond c cm a)], ?_⟩
      rw [← h1]
      simp

/-- A 26-document collection. -/
def c6coll : List Doc := (List.range 26).map (fun i => ⟨i + 1, []⟩)

/-- Claim C6, counterexample. In search mode with `pagination.first`
absent, `filterResults` never reaches its stop condition
(`count == undefined` is false in JS), so `getEdges()` returns every
match: 26 edges on a 26-document collection, exceeding the claimed
default bound of 25. -/
theorem c6_counterexample :
    ((getEdges (constructSrc c6coll (fun _ => true) [] ⟨none, none⟩ ⟨none, none⟩ []
          (some "x")).1
        (constructSrc c6coll (fun _ => true) [] ⟨none, none⟩ ⟨none, none⟩ []
          (some "x")).2.1).1.toOption.map List.length) = some 26 ∧
      ¬ (26 ≤ 25) := by
  refine ⟨by decide, by decide⟩

/-- Claim C6, amended: in native mode a resolved `getEdges()` has at most
`perPage = pagination.first || 25` edges; in search mode the bound is
`pagination.first` when it is provided — when it is absent no bound is
applied at all (see the counterexample). `perPage` itself equals
`pagination.first` whenever a positive `first` is provided and 25 when it
is absent. -/
theorem c6_amended :
    (∀ (c : Cfg) (s : PagState) (es : List Edge),
        truthyS c.search = none → s.edge = none → (getEdges c s).1 = .ok es →
        es.length ≤ perPageOf c.pagination.first)
    ∧ (∀ (c : Cfg) (s : PagState) (es : List Edge) (k : Nat) (str : String),
        truthyS c.search = some str → c.pagination.first = some k →
        s.edge = none → (getEdges c s).1 = .ok es → es.length ≤ k)
    ∧ (perPageOf none = 25 ∧ ∀ k : Nat, 0 < k → perPageOf (some k) = k) := by
  refine ⟨?_, ?_, rfl, ?_⟩
  · intro c s es hns he hE
    rcases haP : aggregationAddPagination c s s.pipeline c.pagination.after
      with ⟨r1, s1, n1⟩
    rcases r1 with e | p'
    · simp only [getEdges, he, getEdgesRun, hns, haP] at hE
      simp at hE
    · obtain ⟨q, hq⟩ := addPagination_shape c s s.pipeline c.pagination.after p' s1 n1 haP
      simp only [getEdges, he, getEdgesRun, hns, haP] at hE
      have hes : (docsOf (aggregate c.coll p')).map (fun d => (⟨d, d._id⟩ : Edge)) = es := by
        simpa using hE
      rw [← hes, List.length_map]
      calc (docsOf (aggregate c.coll p')).length
          ≤ (aggregate c.coll p').length := docsOf_length_le _
        _ ≤ perPageOf c.pagination.first := by
            rw [hq, aggregate_snoc]
            simp only [runStage]
            exact List.length_take_le _ _
  · intro c s es k str hsr hk he hE
    simp only [getEdges, he, getEdgesRun, hsr] at hE
    rcases hp : c.pagination with ⟨pf, pa⟩
    rw [hp] at hk
    simp at hk
    subst hk
    rw [hp] at hE
    rcases pa with _ | a
    · rw [filterResults_first] at hE
      have hes : List.map (fun d => (⟨d, d._id⟩ : Edge))
          (((docsOf (aggregate c.coll s.pipeline)).filter (docMatches c.rx)).take k)
            = es := by
        simpa using hE
      rw [← hes, List.length_map]
      exact List.length_take_le _ _
    · rw [filterResults_after] at hE
      have hes : List.map (fun d => (⟨d, d._id⟩ : Edge))
          (((((docsOf (aggregate c.coll s.pipeline)).dropWhile
            (fun d => d._id != a)).drop 1).filter (docMatches c.rx)).take k) = es := by
        simpa using hE
      rw [← hes, List.length_map]
      exact List.length_take_le _ _
  · intro k hk
    match k, hk with
    | k + 1, _ => simp [perPageOf]

/-- Claim C6, witness: a native page of 2 edges respects `perPage 2`, a
search page respects `first = 1`, and the defaults. -/
theorem c6_witness :
    ([(⟨⟨1, []⟩, 1⟩ : Edge), ⟨⟨2, []⟩, 2⟩].length ≤ perPageOf (some 2))
    ∧ ([(⟨⟨1, []⟩, 1⟩ : Edge)].length ≤ 1)
    ∧ perPageOf none = 25 :=
  ⟨c6_amended.1 (natEngine [⟨1, []⟩, ⟨2, []⟩, ⟨3, []⟩] [] ⟨none, none⟩ (some 2) none).1
      (natEngine [⟨1, []⟩, ⟨2, []⟩, ⟨3, []⟩] [] ⟨none, none⟩ (some 2) none).2
      [⟨⟨1, []⟩, 1⟩, ⟨⟨2, []⟩, 2⟩] (by decide) (by decide) (by decide),
   c6_amended.2.1 (constructSrc [⟨1, []⟩, ⟨2, []⟩] (fun _ => true) [] ⟨some 1, none⟩
        ⟨none, none⟩ [] (some "x")).1
      (constructSrc [⟨1, []⟩, ⟨2, []⟩] (fun _ => true) [] ⟨some 1, none⟩
        ⟨none, none⟩ [] (some "x")).2.1
      [⟨⟨1, []⟩, 1⟩] 1 "x" (by decide) (by decide) (by decide) (by decide),
   c6_amended.2.2.1⟩

/-! ## Claim C7: idempotent memoization -/

/-- Claim C7: each public operation computes at most once per instance.
After a first call, a second call returns the identical outcome (value or
error), leaves the state unchanged, and issues zero further
`Model.aggregate` calls. -/
theorem c7_memoized (c : Cfg) (s : PagState) :
    (getTotalCount c (getTotalCount c s).2.1
        = ((getTotalCount c s).1, (getTotalCount c s).2.1, 0))
    ∧ (getEdges c (getEdges c s).2.1 = ((getEdges c s).1, (getEdges c s).2.1, 0))
    ∧ (getEndCursor c (getEndCursor c s).2.1
        = ((getEndCursor c s).1, (getEndCursor c s).2.1, 0))
    ∧ (hasNextPage c (hasNextPage c s).2.1
        = ((hasNextPage c s).1, (hasNextPage c s).2.1, 0)) := by
  refine ⟨?_, ?_, ?_, ?_⟩
  · rcases h : s.count with _ | r <;> simp [getTotalCount, h]
  · rcases h : s.edge with _ | r
    · rcases hR : getEdgesRun c s with ⟨r', s', n⟩
      simp [getEdges, h, hR]
    · simp [getEdges, h]
  · rcases h : s.cursor with _ | r
    · rcases hG : getEdges c s with ⟨r', s', n⟩
      rcases r' with e | es <;> simp [getEndCursor, h, hG]
    · simp [getEndCursor, h]
  · rcases h : s.nextPage with _ | r
    · rcases hC : getEndCursor c s with ⟨rc, sc, n⟩
      rcases rc with e | oc
      · simp [hasNextPage, h, hC]
      · rcases oc with _ | ec
        · simp [hasNextPage, h, hC]
        · rcases hA : aggregationAddPagination c sc sc.pipeline (some ec) with ⟨ra, sa, m⟩
          rcases ra with e | p' <;> simp [hasNextPage, h, hC, hA]
    · simp [hasNextPage, h]

/-! ## Claim C8: the frame property -/

theorem pipeline_getTotalCount (c : Cfg) (s : PagState) :
    ((getTotalCount c s).2.1).pipeline = s.pipeline := by
  rcases h : s.count with _ | r <;> simp [getTotalCount, h]

theorem pipeline_findCursorModel (c : Cfg) (s : PagState) (i : Nat) :
    ((findCursorModel c s i).2.1).pipeline = s.pipeline := by
  rcases h : s.model with _ | r <;> simp [findCursorModel, h]

theorem pipeline_addPagination (c : Cfg) (s : PagState) (pipe : List Stage)
    (after : Option Nat) :
    ((aggregationAddPagination c s pipe after).2.1).pipeline = s.pipeline := by
  rcases after with _ | a
  · simp [aggregationAddPagination]
  · rcases hfc : findCursorModel c s a with ⟨rm, sm, nm⟩
    have hsm : sm.pipeline = s.pipeline := by
      have h := pipeline_findCursorModel c s a
      rw [hfc] at h
      exact h
    rcases rm with e | cm <;> simp [aggregationAddPagination, hfc, hsm]

theorem pipeline_getEdges (c : Cfg) (s : PagState) :
    ((getEdges c s).2.1).pipeline = s.pipeline := by
  rcases h : s.edge with _ | r
  · rcases hns : truthyS c.search with _ | str
    · rcases hA : aggregationAddPagination c s s.pipeline c.pagination.after
        with ⟨ra, sa, m⟩
      have hsa : sa.pipeline = s.pipeline := by
        have hh := pipeline_addPagination c s s.pipeline c.pagination.after
        rw [hA] at hh
        exact hh
      rcases ra with e | p' <;> simp [getEdges, getEdgesRun, h, hns, hA, hsa]
    · simp [getEdges, getEdgesRun, h, hns]
  · simp [getEdges, h]

theorem pipeline_getEndCursor (c : Cfg) (s : PagState) :
    ((getEndCursor c s).2.1).pipeline = s.pipeline := by
  rcases h : s.cursor with _ | r
  · rcases hG : getEdges c s with ⟨r', s', n⟩
    have hs' : s'.pipeline = s.pipeline := by
      have hh := pipeline_getEdges c s
      rw [hG] at hh
      exact hh
    rcases r' with e | es <;> simp [getEndCursor, h, hG, hs']
  · simp [getEndCursor, h]

theorem pipeline_hasNextPage (c : Cfg) (s : PagState) :
    ((hasNextPage c s).2.1).pipeline = s.pipeline := by
  rcases h : s.nextPage with _ | r
  · rcases hC : getEndCursor c s with ⟨rc, sc, n⟩
    have hsc : sc.pipeline = s.pipeline := by
      have hh := pipeline_getEndCursor c s
      rw [hC] at hh
      exact hh
    rcases rc with e | oc
    · simp [hasNextPage, h, hC, hsc]
    · rcases oc with _ | ec
      · simp [hasNextPage, h, hC, hsc]
      · rcases hA : aggregationAddPagination c sc s.pipeline (some ec) with ⟨ra, sa, m⟩
        have hsa : sa.pipeline = sc.pipeline := by
          have hh := pipeline_addPagination c sc s.pipeline (some ec)
          rw [hA] at hh
          rw [hh, hsc]
        rcases ra with e | p' <;> simp [hasNextPage, h, hC, hA, hsa, hsc]
  · simp [hasNextPage, h]

/-- Claim C8, counterexample. The part_000 variant assigns
`this.aggregationPipeline = baseAggregationPipeline` without `.slice()` and
pushes the filter stage into it: the caller's array, empty at the call,
holds the filter's `$match` stage after construction. -/
theorem c8_counterexample :
    (construct000 [] (fun _ => false) [] ⟨none, none⟩ ⟨none, none⟩
        [⟨"a", 5⟩] none).2.2
      = [Stage.smatch (.fieldEq "a" 5)] ∧
    ([] : List Stage) ≠ [Stage.smatch (.fieldEq "a" 5)] := by
  refine ⟨rfl, by decide⟩

/-- Claim C8, amended: the `src/pagination.js` constructor copies the
caller-supplied array (which therefore stays unchanged), and no public
operation ever mutates the stored base pipeline — every call operates on a
copy. The part_000 variant, however, pushes its filter and sort stages
into the caller-supplied array itself at construction. -/
theorem c8_amended :
    (∀ (coll : List Doc) (rx : String → Bool) (base : List Stage)
        (pagination : Pagination) (sort : SortSpec) (filters : List Filter)
        (search : Option String),
        (constructSrc coll rx base pagination sort filters search).2.2 = base)
    ∧ (∀ (c : Cfg) (s : PagState),
        ((getTotalCount c s).2.1).pipeline = s.pipeline
      ∧ ((getEdges c s).2.1).pipeline = s.pipeline
      ∧ ((getEndCursor c s).2.1).pipeline = s.pipeline
      ∧ ((hasNextPage c s).2.1).pipeline = s.pipeline)
    ∧ (∀ (coll : List Doc) (rx : String → Bool) (base : List Stage)
        (pagination : Pagination) (sort : SortSpec) (filters : List Filter0)
        (search : Option String),
        (construct000 coll rx base pagination sort filters search).2.2
          = base ++ filters.map (fun f => Stage.smatch (.fieldEq f.field f.value))
            ++ sortStageOf sort) :=
  ⟨fun _ _ _ _ _ _ _ => rfl,
   fun c s => ⟨pipeline_getTotalCount c s, pipeline_getEdges c s,
     pipeline_getEndCursor c s, pipeline_hasNextPage c s⟩,
   fun _ _ _ _ _ _ _ => rfl⟩

/-! ## Claim C9: getTotalCount -/

/-- Counting: `$count` appended to a pipeline: the code's `0 if no count record`
convention recovers exactly the length of the pipeline's result. -/
theorem count_pipeline (coll : List Doc) (q : List Stage) (nm : String) :
    (match aggregate coll (q ++ [Stage.scount nm]) with
      | .cnt _ n :: _ => n | _ => 0) = (aggregate coll q).length := by
  rw [aggregate_snoc]
  simp only [runStage]
  rcases h : aggregate coll q with _ | ⟨o, rest⟩
  · simp
  · simp [h]

/-- The base pipeline of the C9 counterexample: a `$project` that drops
every field, followed by a `$match` that needs the dropped field. -/
def c9base : List Stage := [.sproject [], .smatch (.fieldIn "a" [5])]

/-- Claim C9, counterexample. Executing the base pipeline yields 0 records
(the `$match` on `a` fails after `$project` removed it), but
`getTotalCount()` strips the `$project` before counting and resolves 1. -/
theorem c9_counterexample :
    (getTotalCount (constructSrc [⟨1, [("a", 5)]⟩] (fun _ => false) c9base
          ⟨none, none⟩ ⟨none, none⟩ [] none).1
        (constructSrc [⟨1, [("a", 5)]⟩] (fun _ => false) c9base
          ⟨none, none⟩ ⟨none, none⟩ [] none).2.1).1 = .ok 1 ∧
    (docsOf (aggregate [⟨1, [("a", 5)]⟩] c9base)).length = 0 := by
  refine ⟨by decide, by decide⟩

/-- Claim C9, amended: in native mode `getTotalCount()` resolves the
number of records produced by the base pipeline **with its `$project`
stages stripped** (appending a `$count` stage and returning 0 when it
yields no record); this coincides with the base pipeline's own record
count whenever the pipeline contains no `$project` stage. In search mode
it resolves the number of pattern-matching records among the base
pipeline's results. -/
theorem c9_amended :
    (∀ (c : Cfg) (s : PagState), truthyS c.search = none → s.count = none →
        (getTotalCount c s).1
          = .ok ((aggregate c.coll (s.pipeline.filter
              (fun st => !st.isProject))).length))
    ∧ (∀ (c : Cfg) (s : PagState), truthyS c.search = none → s.count = none →
        (∀ st ∈ s.pipeline, st.isProject = false) →
        (getTotalCount c s).1 = .ok ((aggregate c.coll s.pipeline).length))
    ∧ (∀ (c : Cfg) (s : PagState) (str : String),
        truthyS c.search = some str → s.count = none →
        (getTotalCount c s).1
          = .ok (((docsOf (aggregate c.coll s.pipeline)).filter
              (docMatches c.rx)).length)) := by
  have hnat : ∀ (c : Cfg) (s : PagState), truthyS c.search = none → s.count = none →
      (getTotalCount c s).1
        = .ok ((aggregate c.coll (s.pipeline.filter (fun st => !st.isProject))).length) := by
    intro c s hns hc0
    have hsplit : (s.pipeline ++ [Stage.scount "count"]).filter (fun st => !st.isProject)
        = s.pipeline.filter (fun st => !st.isProject) ++ [Stage.scount "count"] := by
      rw [List.filter_append]
      rfl
    simp only [getTotalCount, hc0, hns, hsplit, count_pipeline]
  refine ⟨hnat, ?_, ?_⟩
  · intro c s hns hc0 hnp
    have hf : s.pipeline.filter (fun st => !st.isProject) = s.pipeline :=
      List.filter_eq_self.2 (fun st hst => by simp [hnp st hst])
    rw [hnat c s hns hc0, hf]
  · intro c s str hsr hc0
    simp only [getTotalCount, hc0, hsr, filterResults_none]

/-- Claim C9, witness: the amended native count at the counterexample
engine, and a search-mode count. -/
theorem c9_witness :
    (getTotalCount (constructSrc [⟨1, [("a", 5)]⟩] (fun _ => false) c9base
          ⟨none, none⟩ ⟨none, none⟩ [] none).1
        (constructSrc [⟨1, [("a", 5)]⟩] (fun _ => false) c9base
          ⟨none, none⟩ ⟨none, none⟩ [] none).2.1).1
      = .ok ((aggregate [⟨1, [("a", 5)]⟩] (c9base.filter
          (fun st => !st.isProject))).length) ∧
    (getTotalCount (constructSrc [⟨1, []⟩, ⟨2, []⟩] (fun _ => true) []
          ⟨none, none⟩ ⟨none, none⟩ [] (some "x")).1
        (constructSrc [⟨1, []⟩, ⟨2, []⟩] (fun _ => true) []
          ⟨none, none⟩ ⟨none, none⟩ [] (some "x")).2.1).1
      = .ok (((docsOf (aggregate [⟨1, []⟩, ⟨2, []⟩] [])).filter
          (docMatches (fun _ => true))).length) :=
  ⟨c9_amended.1 (constructSrc [⟨1, [("a", 5)]⟩] (fun _ => false) c9base
      ⟨none, none⟩ ⟨none, none⟩ [] none).1
    (constructSrc [⟨1, [("a", 5)]⟩] (fun _ => false) c9base
      ⟨none, none⟩ ⟨none, none⟩ [] none).2.1 (by decide) (by decide),
   c9_amended.2.2 (constructSrc [⟨1, []⟩, ⟨2, []⟩] (fun _ => true) []
      ⟨none, none⟩ ⟨none, none⟩ [] (some "x")).1
    (constructSrc [⟨1, []⟩, ⟨2, []⟩] (fun _ => true) []
      ⟨none, none⟩ ⟨none, none⟩ [] (some "x")).2.1 "x" (by decide) (by decide)⟩

/-! ## Claim C10: hasNextPage on an empty page -/

/-- Claim C10: when `getEdges()` resolves to an empty page (so
`getEndCursor()` resolves `null`), `hasNextPage()` does not resolve
`false` — it rejects by dereferencing `null._id` (the TypeError modelled
as `Err.nullDeref`), and the rejection is memoized: a second call returns
the same error with no further store calls. -/
theorem c10_null_end_cursor (c : Cfg) (s : PagState)
    (hcu : s.cursor = none) (hnp : s.nextPage = none)
    (hE : (getEdges c s).1 = .ok []) :
    (hasNextPage c s).1 = .error .nullDeref
    ∧ hasNextPage c (hasNextPage c s).2.1
        = (.error .nullDeref, (hasNextPage c s).2.1, 0) := by
  rcases hG : getEdges c s with ⟨r, s', n⟩
  have hr : r = .ok [] := by
    rw [hG] at hE
    exact hE
  subst hr
  have hC : getEndCursor c s = (.ok none, { s' with cursor := some (.ok none) }, n) := by
    simp [getEndCursor, hcu, hG]
  have hN : hasNextPage c s
      = (.error .nullDeref,
         { s' with cursor := some (.ok none), nextPage := some (.error .nullDeref) },
         n) := by
    simp [hasNextPage, hnp, hC]
  refine ⟨by rw [hN], ?_⟩
  rw [hN]
  simp [hasNextPage]

/-- Claim C10, witness: a fresh engine over an empty collection. -/
theorem c10_witness :
    (hasNextPage (natEngine [] [] ⟨none, none⟩ none none).1
        (natEngine [] [] ⟨none, none⟩ none none).2).1 = .error .nullDeref
    ∧ hasNextPage (natEngine [] [] ⟨none, none⟩ none none).1
        (hasNextPage (natEngine [] [] ⟨none, none⟩ none none).1
          (natEngine [] [] ⟨none, none⟩ none none).2).2.1
        = (.error .nullDeref,
           (hasNextPage (natEngine [] [] ⟨none, none⟩ none none).1
             (natEngine [] [] ⟨none, none⟩ none none).2).2.1, 0) :=
  c10_null_end_cursor (natEngine [] [] ⟨none, none⟩ none none).1
    (natEngine [] [] ⟨none, none⟩ none none).2 (by decide) (by decide) (by decide)

end MGP
